import Mathlib

/-!
# Verification of the tts-qa-recorder core

Shallow embedding of the classification heuristic (`inferCategory`) and the
windowed analytics pipeline (`analysisData` / `summaryText`) of
`src/constants.ts` and `src/types.ts`, together with theorems settling the
frozen claims about them.

Modelling conventions:
* JS strings are Lean `String` (a list of unicode characters);
  `String.prototype.toLowerCase` is modelled by mapping `Char.toLower`
  (the identity on the non-ASCII characters the program's tag/keyword
  configuration uses, and ASCII lowercasing otherwise);
  `String.prototype.includes` is the substring (infix) test.
* Timestamps are integer milliseconds on a single time axis with fixed
  86 400 000 ms calendar days (the UTC model of the JS `Date` arithmetic
  used by `analysisData`); `getDateKey` is modelled by the day number,
  which is in bijection with the `YYYY-MM-DD` key strings the code uses.
* A JS `Record<string, number>` populated by `m[k] = (m[k] ?? 0) + 1`
  together with `Object.entries` is modelled as an insertion-ordered
  association list; `Array.prototype.sort`, which is required to be
  stable, is modelled by a stable insertion sort with the same comparator.
* The floating-point divisions of the summary are modelled over `ℚ`, and
  `Number.prototype.toFixed(1)` by rounding to one decimal digit.
-/

namespace TtsQaRecorder

/-- The `IssueCategory` from `types.ts`: the two-way classification label. -/
inductive IssueCategory
  | text
  | tts
deriving DecidableEq, Repr

/-- The `ObservationDraft` from `types.ts`: the classifier's input. -/
structure ObservationDraft where
  course_name : String
  tags : List String
  issue_description : String
  feeling_tags : List String
  feeling_other : String
deriving DecidableEq, Repr

/-- The `ClassificationResult` from `types.ts`. -/
structure ClassificationResult where
  category : IssueCategory
  reason : String
deriving DecidableEq, Repr

/-- The `textIssueTags` from `constants.ts`. -/
def textIssueTags : List String :=
  ["夸奖密度过高", "反馈力度失衡", "口语词不自然", "文本表达别扭", "其他"]

/-- The `ttsIssueTags` from `constants.ts`. -/
def ttsIssueTags : List String :=
  ["发音错误", "断句停顿不合理", "重读异常", "连读/吞音", "语速异常", "噪声/毛刺", "其他"]

/-- The `textKeywords` from `types.ts`. -/
def textKeywords : List String :=
  ["夸奖", "夸麻木", "反馈", "策略", "口语", "不自然", "表达", "过头"]

/-- The `ttsKeywords` from `types.ts`. -/
def ttsKeywords : List String :=
  ["发音", "断句", "停顿", "重读", "连读", "吞音", "语速", "噪声", "毛刺", "读音"]

/-- JS `String.prototype.toLowerCase`, character-wise. -/
def jsToLowerCase (s : String) : String := ⟨s.data.map Char.toLower⟩

/-- JS `text.includes(keyword)`: substring test. -/
def jsIncludes (text keyword : String) : Bool := decide (keyword.data <:+: text.data)

/-- JS `Array.prototype.join(sep)`. -/
def jsJoin (sep : String) : List String → String
  | [] => ""
  | [s] => s
  | s :: rest => s ++ sep ++ jsJoin sep rest

/-- The `getMatchScore` from `types.ts`: fold over the keyword list, adding 1
for each keyword contained in `text`. -/
def getMatchScore (text : String) (keywords : List String) : Nat :=
  keywords.foldl (fun sum keyword => if jsIncludes text keyword then sum + 1 else sum) 0

/-- The `textTagScore` local of `inferCategory`: draft tags in `textTagSet`. -/
def textTagScore (draft : ObservationDraft) : Nat :=
  (draft.tags.filter (fun tag => textIssueTags.contains tag)).length

/-- The `ttsTagScore` local of `inferCategory`: draft tags in `ttsTagSet`. -/
def ttsTagScore (draft : ObservationDraft) : Nat :=
  (draft.tags.filter (fun tag => ttsIssueTags.contains tag)).length

/-- The `mergedText` local of `inferCategory`:
`[draft.issue_description, draft.tags.join(' ')].join(' ').toLowerCase()`. -/
def mergedText (draft : ObservationDraft) : String :=
  jsToLowerCase (draft.issue_description ++ " " ++ jsJoin " " draft.tags)

/-- The `textKeywordScore` local of `inferCategory`. -/
def textKeywordScore (draft : ObservationDraft) : Nat :=
  getMatchScore (mergedText draft) textKeywords

/-- The `ttsKeywordScore` local of `inferCategory`. -/
def ttsKeywordScore (draft : ObservationDraft) : Nat :=
  getMatchScore (mergedText draft) ttsKeywords

/-- The `textScore` local of `inferCategory`: `textTagScore * 2 + textKeywordScore`. -/
def textScore (draft : ObservationDraft) : Nat :=
  textTagScore draft * 2 + textKeywordScore draft

/-- The `ttsScore` local of `inferCategory`: `ttsTagScore * 2 + ttsKeywordScore`. -/
def ttsScore (draft : ObservationDraft) : Nat :=
  ttsTagScore draft * 2 + ttsKeywordScore draft

/-- The reason template of the text-wins branch of `inferCategory`. -/
def textWinReason (score tagScore keywordScore : Nat) : String :=
  "文本得分 " ++ toString score ++ "（标签 " ++ toString tagScore ++ "，关键词 "
    ++ toString keywordScore ++ "）"

/-- The reason template of the tts-wins branch of `inferCategory`. -/
def ttsWinReason (score tagScore keywordScore : Nat) : String :=
  "TTS得分 " ++ toString score ++ "（标签 " ++ toString tagScore ++ "，关键词 "
    ++ toString keywordScore ++ "）"

/-- The fixed reason of the tie-with-text-tags branch of `inferCategory`. -/
def tieTextReason : String := "标签分数接近，默认归类为文本问题"

/-- The fixed reason of the no-signal branch of `inferCategory`. -/
def tieTtsReason : String := "无明显线索，默认归类为TTS问题"

/-- The `inferCategory` from `types.ts`: the classifier. -/
def inferCategory (draft : ObservationDraft) : ClassificationResult :=
  if textScore draft > ttsScore draft then
    ⟨.text, textWinReason (textScore draft) (textTagScore draft) (textKeywordScore draft)⟩
  else if ttsScore draft > textScore draft then
    ⟨.tts, ttsWinReason (ttsScore draft) (ttsTagScore draft) (ttsKeywordScore draft)⟩
  else if textTagScore draft > 0 then
    ⟨.text, tieTextReason⟩
  else
    ⟨.tts, tieTtsReason⟩

/-- The decision procedure exactly as the specification words it (claim C1):
weighted totals `2*tagScore + keywordScore`, strict comparison in each
direction with a breakdown reason, and the asymmetric tie-break. -/
def classifyDecisionSpec (draft : ObservationDraft) : ClassificationResult :=
  let tScore := 2 * textTagScore draft + textKeywordScore draft
  let sScore := 2 * ttsTagScore draft + ttsKeywordScore draft
  if tScore > sScore then
    ⟨.text, textWinReason tScore (textTagScore draft) (textKeywordScore draft)⟩
  else if sScore > tScore then
    ⟨.tts, ttsWinReason sScore (ttsTagScore draft) (ttsKeywordScore draft)⟩
  else if textTagScore draft > 0 then
    ⟨.text, tieTextReason⟩
  else
    ⟨.tts, tieTtsReason⟩

/-- C1: on every draft, `inferCategory` decides by the spec's four-way rule:
category `text` when `2*textTagScore + textKeywordScore` strictly exceeds
`2*ttsTagScore + ttsKeywordScore` (reason: winning score with tag/keyword
breakdown), symmetrically `tts`, and on equality `text` with the
"tag scores tied" reason when `textTagScore > 0`, else `tts` with the
"no clear signal" reason. -/
theorem inferCategory_eq_decisionSpec (draft : ObservationDraft) :
    inferCategory draft = classifyDecisionSpec draft := by
  unfold inferCategory classifyDecisionSpec textScore ttsScore
  rw [Nat.mul_comm (textTagScore draft) 2, Nat.mul_comm (ttsTagScore draft) 2]

/-- The scan string exactly as the specification words it (claim C2): the
lowercased concatenation of the issue description and the space-joined tags. -/
def scanStringSpec (draft : ObservationDraft) : String :=
  jsToLowerCase (draft.issue_description ++ " " ++ jsJoin " " draft.tags)

/-- Keyword sub-score as the specification words it (claim C2): the number of
keywords occurring as a substring of the scan string, each contributing at
most 1 however often it occurs. -/
def keywordScoreSpec (keywords : List String) (scan : String) : Nat :=
  (keywords.filter (fun keyword => jsIncludes scan keyword)).length

/-- Tag sub-score as the specification words it (claim C2): the number of
draft tags that are members of the canonical tag list. -/
def tagScoreSpec (canonical tags : List String) : Nat :=
  (tags.filter (fun tag => decide (tag ∈ canonical))).length

theorem getMatchScore_foldl (text : String) (keywords : List String) (n : Nat) :
    keywords.foldl (fun sum keyword => if jsIncludes text keyword then sum + 1 else sum) n
      = n + (keywords.filter (fun keyword => jsIncludes text keyword)).length := by
  induction keywords generalizing n with
  | nil => simp
  | cons k ks ih =>
    by_cases h : jsIncludes text k
    · simp only [List.foldl_cons, h, if_pos, List.filter_cons_of_pos, List.length_cons, ih]
      omega
    · simp [h, ih]

theorem getMatchScore_eq_filter_length (text : String) (keywords : List String) :
    getMatchScore text keywords
      = (keywords.filter (fun keyword => jsIncludes text keyword)).length := by
  unfold getMatchScore
  simpa using getMatchScore_foldl text keywords 0

/-- C2: the four sub-scores computed by the code equal the reference
definitions: tag scores count draft tags belonging to the canonical tag
lists, keyword scores count keywords occurring as substrings of the
lowercased scan string (at most once each). -/
theorem subScores_eq_spec (draft : ObservationDraft) :
    textTagScore draft = tagScoreSpec textIssueTags draft.tags
    ∧ ttsTagScore draft = tagScoreSpec ttsIssueTags draft.tags
    ∧ textKeywordScore draft = keywordScoreSpec textKeywords (scanStringSpec draft)
    ∧ ttsKeywordScore draft = keywordScoreSpec ttsKeywords (scanStringSpec draft) := by
  refine ⟨?_, ?_, ?_, ?_⟩
  · unfold textTagScore tagScoreSpec
    simp only [List.elem_eq_mem]
  · unfold ttsTagScore tagScoreSpec
    simp only [List.elem_eq_mem]
  · unfold textKeywordScore keywordScoreSpec
    rw [getMatchScore_eq_filter_length]
    rfl
  · unfold ttsKeywordScore keywordScoreSpec
    rw [getMatchScore_eq_filter_length]
    rfl

/-- C9: `inferCategory` reads only `tags` and `issue_description`. -/
theorem inferCategory_depends_only_on_tags_and_desc (d1 d2 : ObservationDraft)
    (htags : d1.tags = d2.tags) (hdesc : d1.issue_description = d2.issue_description) :
    inferCategory d1 = inferCategory d2 := by
  have hm : mergedText d1 = mergedText d2 := by
    unfold mergedText
    rw [htags, hdesc]
  unfold inferCategory textScore ttsScore textTagScore ttsTagScore
    textKeywordScore ttsKeywordScore
  rw [hm, htags]

theorem inferCategory_depends_only_witness :
    inferCategory ⟨"课程A", ["发音错误"], "读音不对", ["偶尔能感觉到情绪"], ""⟩
      = inferCategory ⟨"课程B", ["发音错误"], "读音不对", [], "随便"⟩ :=
  inferCategory_depends_only_on_tags_and_desc _ _ rfl rfl

/-- The `emptyObservationDraft` from `types.ts`. -/
def emptyObservationDraft : ObservationDraft :=
  { course_name := "", tags := [], issue_description := "", feeling_tags := [],
    feeling_other := "" }

/-- The shared literal "other" tag. -/
def otherTag : String := "其他"

/-- Adding the "other" tag at the end of a draft's tag list (the UI's
toggle appends a newly selected tag). -/
def addOtherTag (d : ObservationDraft) : ObservationDraft :=
  { d with tags := d.tags ++ [otherTag] }

/-- C3 counterexample: on the empty draft, adding the "其他" tag changes the
category returned by the classifier from `tts` to `text` (the all-zero tie
becomes a 2–2 tie with `textTagScore = 1`, switching the tie-break branch). -/
theorem other_tag_changes_category :
    (inferCategory emptyObservationDraft).category = IssueCategory.tts
    ∧ (inferCategory (addOtherTag emptyObservationDraft)).category = IssueCategory.text
    ∧ inferCategory (addOtherTag emptyObservationDraft)
        ≠ inferCategory emptyObservationDraft := by
  decide

theorem infix_concat_iff {α : Type} (k t : List α) (c : α) (hk : k ≠ []) (hc : c ∉ k) :
    k <:+: t ++ [c] ↔ k <:+: t := by
  constructor
  · rintro ⟨l, r, h⟩
    rcases List.eq_nil_or_concat r with rfl | ⟨r', c', rfl⟩
    · rcases List.eq_nil_or_concat k with rfl | ⟨k', a, rfl⟩
      · exact absurd rfl hk
      · exfalso
        simp only [List.concat_eq_append, List.append_nil, ← List.append_assoc] at h
        have := (List.append_inj' h rfl).2
        have hac : a = c := by simpa using this
        refine hc ?_
        simp [hac, List.concat_eq_append]
    · simp only [List.concat_eq_append, ← List.append_assoc] at h
      have h2 := (List.append_inj' h rfl).1
      exact ⟨l, r', h2⟩
  · rintro ⟨l, r, h⟩
    exact ⟨l, r ++ [c], by rw [← List.append_assoc, h]⟩

theorem infix_append_right_iff {α : Type} (k m s : List α) (hk : k ≠ [])
    (hd : ∀ c ∈ s, c ∉ k) : k <:+: m ++ s ↔ k <:+: m := by
  induction s using List.reverseRecOn with
  | nil => simp
  | append_singleton s' c ih =>
    rw [← List.append_assoc,
      infix_concat_iff k (m ++ s') c hk (hd c (by simp))]
    exact ih (fun c hc => hd c (by simp [hc]))

theorem jsJoin_concat (sep x : String) (ts : List String) (h : ts ≠ []) :
    jsJoin sep (ts ++ [x]) = jsJoin sep ts ++ sep ++ x := by
  induction ts with
  | nil => exact absurd rfl h
  | cons a ts' ih =>
    cases ts' with
    | nil => rfl
    | cons b ts'' =>
      simp only [List.cons_append, List.append_eq, jsJoin]
      have ih2 := ih (by simp)
      rw [List.cons_append] at ih2
      rw [ih2]
      simp [String.append_assoc]

theorem mergedText_addOtherTag_data (d : ObservationDraft) :
    (mergedText (addOtherTag d)).data
      = (mergedText d).data
          ++ (if d.tags = [] then otherTag.data else (" " ++ otherTag).data) := by
  unfold mergedText addOtherTag jsToLowerCase
  cases htags : d.tags with
  | nil =>
    simp only [List.nil_append, if_pos rfl]
    show ((d.issue_description ++ " " ++ jsJoin " " [otherTag]).data).map Char.toLower
      = ((d.issue_description ++ " " ++ jsJoin " " []).data).map Char.toLower ++ otherTag.data
    have hother : (otherTag.data).map Char.toLower = otherTag.data := by decide
    simp [String.data_append, List.map_append, jsJoin, hother]
  | cons a ts =>
    simp only [if_neg (by simp : ¬(a :: ts = []))]
    show ((d.issue_description ++ " " ++ jsJoin " " ((a :: ts) ++ [otherTag])).data).map Char.toLower
      = ((d.issue_description ++ " " ++ jsJoin " " (a :: ts)).data).map Char.toLower
          ++ (" " ++ otherTag).data
    rw [jsJoin_concat " " otherTag (a :: ts) (by simp)]
    have hother : (otherTag.data).map Char.toLower = otherTag.data := by decide
    have hsp : (" ".data).map Char.toLower = " ".data := by decide
    simp [String.data_append, List.map_append, hother, hsp, List.append_assoc]

theorem keywords_unaffected_by_other : ∀ kw ∈ textKeywords ++ ttsKeywords,
    kw.data ≠ [] ∧ ∀ c ∈ (" " ++ otherTag).data, c ∉ kw.data := by decide

theorem jsIncludes_mergedText_addOther (d : ObservationDraft) (kw : String)
    (hkw : kw ∈ textKeywords ++ ttsKeywords) :
    jsIncludes (mergedText (addOtherTag d)) kw = jsIncludes (mergedText d) kw := by
  obtain ⟨hne, hdisj⟩ := keywords_unaffected_by_other kw hkw
  unfold jsIncludes
  rw [mergedText_addOtherTag_data d]
  simp only [decide_eq_decide]
  by_cases htags : d.tags = []
  · rw [if_pos htags]
    exact infix_append_right_iff kw.data (mergedText d).data otherTag.data hne
      (fun c hc => hdisj c (by simp [String.data_append] at hc ⊢; exact Or.inr hc))
  · rw [if_neg htags]
    exact infix_append_right_iff kw.data (mergedText d).data (" " ++ otherTag).data hne hdisj

theorem textKeywordScore_addOther (d : ObservationDraft) :
    textKeywordScore (addOtherTag d) = textKeywordScore d := by
  unfold textKeywordScore
  rw [getMatchScore_eq_filter_length, getMatchScore_eq_filter_length]
  congr 1
  apply List.filter_congr
  intro kw hkw
  exact jsIncludes_mergedText_addOther d kw (List.mem_append_left _ hkw)

theorem ttsKeywordScore_addOther (d : ObservationDraft) :
    ttsKeywordScore (addOtherTag d) = ttsKeywordScore d := by
  unfold ttsKeywordScore
  rw [getMatchScore_eq_filter_length, getMatchScore_eq_filter_length]
  congr 1
  apply List.filter_congr
  intro kw hkw
  exact jsIncludes_mergedText_addOther d kw (List.mem_append_right _ hkw)

theorem textTagScore_addOther (d : ObservationDraft) :
    textTagScore (addOtherTag d) = textTagScore d + 1 := by
  unfold textTagScore addOtherTag
  have h : (List.filter (fun tag => textIssueTags.contains tag) [otherTag]).length = 1 := by
    decide
  simp only [List.filter_append, List.length_append, h]

theorem ttsTagScore_addOther (d : ObservationDraft) :
    ttsTagScore (addOtherTag d) = ttsTagScore d + 1 := by
  unfold ttsTagScore addOtherTag
  have h : (List.filter (fun tag => ttsIssueTags.contains tag) [otherTag]).length = 1 := by
    decide
  simp only [List.filter_append, List.length_append, h]

theorem textScore_addOther (d : ObservationDraft) :
    textScore (addOtherTag d) = textScore d + 2 := by
  unfold textScore
  rw [textTagScore_addOther, textKeywordScore_addOther]
  ring

theorem ttsScore_addOther (d : ObservationDraft) :
    ttsScore (addOtherTag d) = ttsScore d + 2 := by
  unfold ttsScore
  rw [ttsTagScore_addOther, ttsKeywordScore_addOther]
  ring

/-- C3 amended: "其他" belongs to both canonical tag lists and contributes 1
to each tag score, so both weighted scores rise by exactly 2 and every
strict comparison—and the tie already showing a text tag—keeps its
category; but in the remaining case (scores tied and no text tag) adding
"其他" flips the tie-break from `tts` to `text`, so the category is *not*
always unchanged. -/
theorem other_tag_scoring_neutral (d : ObservationDraft) :
    otherTag ∈ textIssueTags ∧ otherTag ∈ ttsIssueTags
    ∧ textTagScore (addOtherTag d) = textTagScore d + 1
    ∧ ttsTagScore (addOtherTag d) = ttsTagScore d + 1
    ∧ (textScore d ≠ ttsScore d ∨ 0 < textTagScore d →
        (inferCategory (addOtherTag d)).category = (inferCategory d).category)
    ∧ (textScore d = ttsScore d ∧ textTagScore d = 0 →
        (inferCategory d).category = IssueCategory.tts
        ∧ (inferCategory (addOtherTag d)).category = IssueCategory.text) := by
  refine ⟨by decide, by decide, textTagScore_addOther d, ttsTagScore_addOther d, ?_, ?_⟩
  · intro h
    unfold inferCategory
    rw [textScore_addOther, ttsScore_addOther, textTagScore_addOther]
    rcases h with h | h <;> split_ifs <;> first | rfl | omega
  · rintro ⟨heq, hzero⟩
    unfold inferCategory
    rw [textScore_addOther, ttsScore_addOther, textTagScore_addOther]
    constructor <;> split_ifs <;> first | rfl | omega

theorem other_tag_scoring_neutral_witness :
    (inferCategory (addOtherTag ⟨"", ["发音错误"], "", [], ""⟩)).category
      = (inferCategory ⟨"", ["发音错误"], "", [], ""⟩).category
    ∧ ((inferCategory emptyObservationDraft).category = IssueCategory.tts
        ∧ (inferCategory (addOtherTag emptyObservationDraft)).category
            = IssueCategory.text) :=
  ⟨(other_tag_scoring_neutral _).2.2.2.2.1 (Or.inl (by decide)),
   (other_tag_scoring_neutral _).2.2.2.2.2 ⟨by decide, by decide⟩⟩

/-- The `Observation` from `types.ts` (with `created_at` as epoch milliseconds). -/
structure Observation where
  id : String
  session_id : String
  course_name : String
  category : IssueCategory
  tags : List String
  issue_description : String
  feeling_tags : List String
  feeling_other : Option String
  created_at : Int
deriving DecidableEq, Repr

/-- The `AnalysisWindow` from `types.ts`: `'7d' | '30d' | 'all'`. -/
inductive AnalysisWindow
  | w7
  | w30
  | all
deriving DecidableEq, Repr

/-- The `windowDays` local of `analysisData` (`null` for `all`). -/
def windowDaysOf : AnalysisWindow → Option Nat
  | .w7 => some 7
  | .w30 => some 30
  | .all => none

/-- One calendar day in milliseconds. -/
def msPerDay : Int := 86400000

/-- JS `date.setHours(0, 0, 0, 0)`: floor to the start of the calendar day. -/
def startOfDay (t : Int) : Int := msPerDay * Int.fdiv t msPerDay

/-- The day number of a timestamp; `getDateKey` from `types.ts` modulo the
bijection between day numbers and `YYYY-MM-DD` strings. -/
def dateKey (t : Int) : Int := Int.fdiv t msPerDay

/-- JS `date.setHours(23, 59, 59, 999)`: last millisecond of the day. -/
def endOfDay (t : Int) : Int := startOfDay t + (msPerDay - 1)

/-- The `now` local of `analysisData`: the wall clock pushed to the end of
its calendar day. -/
def analysisNow (now0 : Int) : Int := endOfDay now0

/-- The `currentStart` local of `analysisData`: start of day, minus
`windowDays - 1` days. -/
def currentStartOf (now : Int) (wd : Nat) : Int :=
  startOfDay now - ((wd : Int) - 1) * msPerDay

/-- The `previousEnd` local of `analysisData`: one millisecond before
`currentStart`. -/
def previousEndOf (now : Int) (wd : Nat) : Int := currentStartOf now wd - 1

/-- The `previousStart` local of `analysisData`. -/
def previousStartOf (now : Int) (wd : Nat) : Int :=
  startOfDay (previousEndOf now wd) - ((wd : Int) - 1) * msPerDay

/-- The `currentItems` local of `analysisData`. -/
def currentItems (w : AnalysisWindow) (observations : List Observation) (now0 : Int) :
    List Observation :=
  observations.filter (fun item =>
    match windowDaysOf w with
    | none => true
    | some wd =>
      decide (currentStartOf (analysisNow now0) wd ≤ item.created_at
        ∧ item.created_at ≤ analysisNow now0))

/-- The `previousItems` local of `analysisData`. -/
def previousItems (w : AnalysisWindow) (observations : List Observation) (now0 : Int) :
    List Observation :=
  match windowDaysOf w with
  | none => []
  | some wd =>
    observations.filter (fun item =>
      decide (previousStartOf (analysisNow now0) wd ≤ item.created_at
        ∧ item.created_at ≤ previousEndOf (analysisNow now0) wd))

/-- The `totalCount` of `analysisData`. -/
def totalCount (w : AnalysisWindow) (observations : List Observation) (now0 : Int) : Nat :=
  (currentItems w observations now0).length

/-- The `textCount` of `analysisData`. -/
def textCount (w : AnalysisWindow) (observations : List Observation) (now0 : Int) : Nat :=
  ((currentItems w observations now0).filter
    (fun item => decide (item.category = IssueCategory.text))).length

/-- The `ttsCount` of `analysisData`. -/
def ttsCount (w : AnalysisWindow) (observations : List Observation) (now0 : Int) : Nat :=
  ((currentItems w observations now0).filter
    (fun item => decide (item.category = IssueCategory.tts))).length

theorem msPerDay_pos : (0 : Int) < msPerDay := by norm_num [msPerDay]

theorem fdiv_mul_add (F r : Int) (h0 : 0 ≤ r) (h1 : r < msPerDay) :
    Int.fdiv (msPerDay * F + r) msPerDay = F := by
  rw [Int.fdiv_eq_ediv _ (le_of_lt msPerDay_pos), add_comm,
    Int.add_mul_ediv_left r F (ne_of_gt msPerDay_pos),
    Int.ediv_eq_zero_of_lt h0 h1, zero_add]

theorem dateKey_mul (K : Int) : dateKey (msPerDay * K) = K := by
  unfold dateKey
  exact Int.mul_fdiv_cancel_left K (ne_of_gt msPerDay_pos)

theorem dateKey_mul_sub_one (K : Int) : dateKey (msPerDay * K - 1) = K - 1 := by
  have h : msPerDay * K - 1 = msPerDay * (K - 1) + (msPerDay - 1) := by ring
  rw [h]
  unfold dateKey
  exact fdiv_mul_add (K - 1) (msPerDay - 1) (by norm_num [msPerDay]) (by norm_num [msPerDay])

theorem startOfDay_as_dateKey (t : Int) : startOfDay t = msPerDay * dateKey t := rfl

theorem dateKey_endOfDay (t : Int) : dateKey (endOfDay t) = dateKey t := by
  unfold endOfDay
  rw [startOfDay_as_dateKey]
  unfold dateKey
  exact fdiv_mul_add _ _ (by norm_num [msPerDay]) (by norm_num [msPerDay])

theorem startOfDay_endOfDay (t : Int) : startOfDay (endOfDay t) = startOfDay t := by
  rw [startOfDay_as_dateKey (endOfDay t), dateKey_endOfDay, startOfDay_as_dateKey]

theorem dateKey_analysisNow (t : Int) : dateKey (analysisNow t) = dateKey t :=
  dateKey_endOfDay t

theorem currentItems_of_some (w : AnalysisWindow) (wd : Nat)
    (observations : List Observation) (now0 : Int) (h : windowDaysOf w = some wd) :
    currentItems w observations now0 = observations.filter (fun item =>
      decide (currentStartOf (analysisNow now0) wd ≤ item.created_at
        ∧ item.created_at ≤ analysisNow now0)) := by
  unfold currentItems
  simp only [h]

theorem previousItems_of_some (w : AnalysisWindow) (wd : Nat)
    (observations : List Observation) (now0 : Int) (h : windowDaysOf w = some wd) :
    previousItems w observations now0 = observations.filter (fun item =>
      decide (previousStartOf (analysisNow now0) wd ≤ item.created_at
        ∧ item.created_at ≤ previousEndOf (analysisNow now0) wd)) := by
  unfold previousItems
  simp only [h]

/-- The window-layout properties asserted by claim C4, for window `w` with
day count `wd`, reference time `now0` and observation log `observations`:
the three boundary formulas, contiguity, disjointness, equal day counts,
and the exact filter characterisation of the two item lists. -/
def WindowSpec (w : AnalysisWindow) (wd : Nat) (observations : List Observation)
    (now0 : Int) : Prop :=
  currentStartOf (analysisNow now0) wd = startOfDay now0 - ((wd : Int) - 1) * msPerDay
  ∧ previousEndOf (analysisNow now0) wd = currentStartOf (analysisNow now0) wd - 1
  ∧ previousStartOf (analysisNow now0) wd
      = startOfDay (previousEndOf (analysisNow now0) wd) - ((wd : Int) - 1) * msPerDay
  ∧ previousStartOf (analysisNow now0) wd
      = currentStartOf (analysisNow now0) wd - (wd : Int) * msPerDay
  ∧ previousEndOf (analysisNow now0) wd + 1 = currentStartOf (analysisNow now0) wd
  ∧ dateKey (previousEndOf (analysisNow now0) wd)
      - dateKey (previousStartOf (analysisNow now0) wd) + 1 = (wd : Int)
  ∧ dateKey (analysisNow now0) - dateKey (currentStartOf (analysisNow now0) wd) + 1 = (wd : Int)
  ∧ currentItems w observations now0 = observations.filter (fun item =>
      decide (currentStartOf (analysisNow now0) wd ≤ item.created_at
        ∧ item.created_at ≤ analysisNow now0))
  ∧ previousItems w observations now0 = observations.filter (fun item =>
      decide (previousStartOf (analysisNow now0) wd ≤ item.created_at
        ∧ item.created_at ≤ previousEndOf (analysisNow now0) wd))
  ∧ ∀ item ∈ currentItems w observations now0, item ∉ previousItems w observations now0

/-- C4: for a `7d`/`30d` window the two periods are laid out as the spec
says — `currentStart` is start-of-day `windowDays - 1` days before `now`'s
day, `previousEnd` is one tick earlier than `currentStart`, `previousStart`
is start-of-day `windowDays - 1` days before `previousEnd`'s day, the two
inclusive windows are contiguous, disjoint and span `windowDays` calendar
days each, and the item lists are exactly the observations whose
`created_at` lies in the respective inclusive interval. -/
theorem analysis_window_layout (w : AnalysisWindow) (wd : Nat)
    (observations : List Observation) (now0 : Int) (h : windowDaysOf w = some wd) :
    WindowSpec w wd observations now0 := by
  have hsod : startOfDay (analysisNow now0) = startOfDay now0 := startOfDay_endOfDay now0
  have hcs : currentStartOf (analysisNow now0) wd
      = msPerDay * (dateKey now0 - ((wd : Int) - 1)) := by
    unfold currentStartOf
    rw [hsod, startOfDay_as_dateKey]
    ring
  have hpe : previousEndOf (analysisNow now0) wd
      = msPerDay * (dateKey now0 - ((wd : Int) - 1)) - 1 := by
    unfold previousEndOf
    rw [hcs]
  have hspe : startOfDay (previousEndOf (analysisNow now0) wd)
      = msPerDay * (dateKey now0 - ((wd : Int) - 1) - 1) := by
    rw [startOfDay_as_dateKey, hpe, dateKey_mul_sub_one]
  have hps : previousStartOf (analysisNow now0) wd
      = msPerDay * (dateKey now0 - ((wd : Int) - 1) - 1 - ((wd : Int) - 1)) := by
    unfold previousStartOf
    rw [hspe]
    ring
  have hcur := currentItems_of_some w wd observations now0 h
  have hprev := previousItems_of_some w wd observations now0 h
  refine ⟨?_, rfl, rfl, ?_, ?_, ?_, ?_, hcur, hprev, ?_⟩
  · unfold currentStartOf
    rw [hsod]
  · rw [hps, hcs]
    ring
  · unfold previousEndOf
    ring
  · rw [hpe, dateKey_mul_sub_one, hps, dateKey_mul]
    ring
  · rw [dateKey_analysisNow, hcs, dateKey_mul]
    ring
  · intro item h1 h2
    rw [hcur] at h1
    rw [hprev] at h2
    simp only [List.mem_filter, decide_eq_true_eq] at h1 h2
    have he : previousEndOf (analysisNow now0) wd + 1 = currentStartOf (analysisNow now0) wd := by
      unfold previousEndOf
      ring
    have b1 := h1.2.1
    have b2 := h2.2.2
    omega

theorem analysis_window_layout_witness : WindowSpec AnalysisWindow.w7 7 [] 0 :=
  analysis_window_layout AnalysisWindow.w7 7 [] 0 rfl

/-- A value stored in one of the JS count records: either a genuine number,
or the non-numeric value produced when `(m[k] ?? 0) + 1` reads an inherited
`Object.prototype` member through the prototype chain (a function or object
plus a number is string concatenation in JS, and a string stays a string). -/
inductive JsNumLike
  | num : Nat → JsNumLike
  | corrupt : JsNumLike
deriving DecidableEq, Repr

/-- The default own members of `Object.prototype`: reading one of these keys
from an object literal that has no own property of that name yields a
non-nullish inherited value instead of `undefined`. -/
def protoNames : List String :=
  ["constructor", "hasOwnProperty", "isPrototypeOf", "propertyIsEnumerable",
   "toLocaleString", "toString", "valueOf", "__defineGetter__", "__defineSetter__",
   "__lookupGetter__", "__lookupSetter__", "__proto__"]

/-- Own-property lookup on the record (insertion-ordered own properties). -/
def jsReadOwn : List (String × JsNumLike) → String → Option JsNumLike
  | [], _ => none
  | p :: ps, key => if p.1 = key then some p.2 else jsReadOwn ps key

/-- The value of `(m[key] ?? 0) + 1`: bump an own numeric property; keep a
corrupted own property corrupted; on an own-property miss fall back to the
prototype chain — an `Object.prototype` member is non-nullish, so `?? 0`
keeps it and `+ 1` concatenates to a string (corrupt), while a genuine miss
gives `undefined ?? 0` and the result `1`. -/
def jsIncrementedValue (m : List (String × JsNumLike)) (key : String) : JsNumLike :=
  match jsReadOwn m key with
  | some (.num n) => .num (n + 1)
  | some .corrupt => .corrupt
  | none => if protoNames.contains key then .corrupt else .num 1

/-- Own-property assignment `m[key] = v`: overwrite in place or append. -/
def jsSetOwn : List (String × JsNumLike) → String → JsNumLike → List (String × JsNumLike)
  | [], key, v => [(key, v)]
  | p :: ps, key, v => if p.1 = key then (p.1, v) :: ps else p :: jsSetOwn ps key v

/-- Embedding of `m[key] = (m[key] ?? 0) + 1` with JS object semantics:
assigning through the inherited `__proto__` setter with a non-object value
is a silent no-op (no own property is ever created); every other key
becomes or updates an own property. -/
def jsRecordIncr (m : List (String × JsNumLike)) (key : String) :
    List (String × JsNumLike) :=
  if key = "__proto__" then m
  else jsSetOwn m key (jsIncrementedValue m key)

/-- Decimal digits to a number. -/
def decDigitsToNat (l : List Char) : Nat :=
  l.foldl (fun n c => n * 10 + (c.toNat - '0'.toNat)) 0

/-- An ECMAScript array-index property key: a canonical decimal numeral with
value below `2^32 - 1`. `Object.entries` lists such keys first, in
ascending numeric order, before the other string keys in insertion order. -/
def jsArrayIndex (s : String) : Option Nat :=
  if s.data ≠ [] ∧ s.data.all Char.isDigit ∧ toString (decDigitsToNat s.data) = s
      ∧ decDigitsToNat s.data < 4294967295 then
    some (decDigitsToNat s.data)
  else none

/-- Insertion step of the ascending numeric ordering of array-index keys. -/
def jsInsertByIndexAsc (x : String × JsNumLike) :
    List (String × JsNumLike) → List (String × JsNumLike)
  | [] => [x]
  | y :: ys =>
    if (jsArrayIndex y.1).getD 0 ≤ (jsArrayIndex x.1).getD 0 then
      y :: jsInsertByIndexAsc x ys
    else x :: y :: ys

/-- Ascending numeric sort of the array-index entries. -/
def jsSortByIndexAsc (l : List (String × JsNumLike)) : List (String × JsNumLike) :=
  l.foldr jsInsertByIndexAsc []

/-- Embedding of `Object.entries(m)`: array-index keys first in ascending
numeric order, then the remaining string keys in insertion order. -/
def jsEntries (m : List (String × JsNumLike)) : List (String × JsNumLike) :=
  jsSortByIndexAsc (m.filter (fun p => (jsArrayIndex p.1).isSome))
    ++ m.filter (fun p => (jsArrayIndex p.1).isNone)

/-- The comparator fact `cmp(a, b) = b[1] - a[1] < 0` of the ranking sort,
asked as "must `b` stay strictly before `a`": a comparison involving a
corrupted (non-numeric) value yields `NaN`, which `SortCompare` treats as a
tie. -/
def jsLtVal : JsNumLike → JsNumLike → Bool
  | .num a, .num b => decide (a < b)
  | _, _ => false

/-- One step of the stable sort `entries.sort((a, b) => b[1] - a[1])`: an
element passes exactly the entries that must stay strictly before it, so
earlier entries win ties. -/
def jsInsertByCountDesc (x : String × JsNumLike) :
    List (String × JsNumLike) → List (String × JsNumLike)
  | [] => [x]
  | y :: ys =>
    if jsLtVal x.2 y.2 then y :: jsInsertByCountDesc x ys else x :: y :: ys

/-- The stable descending-by-count sort used on `Object.entries(...)`. -/
def jsSortByCountDesc (l : List (String × JsNumLike)) : List (String × JsNumLike) :=
  l.foldr jsInsertByCountDesc []

/-- The `tagCountMap` local of `analysisData`, on the JS record model. -/
def tagCountMap (items : List Observation) : List (String × JsNumLike) :=
  items.foldl (fun m item => item.tags.foldl jsRecordIncr m) []

/-- The `courseCountMap` local of `analysisData`, on the JS record model. -/
def courseCountMap (items : List Observation) : List (String × JsNumLike) :=
  items.foldl (fun m item => jsRecordIncr m item.course_name) []

/-- The `feelingCountMap` local of `analysisData`, on the JS record model. -/
def feelingCountMap (items : List Observation) : List (String × JsNumLike) :=
  items.foldl (fun m item => item.feeling_tags.foldl jsRecordIncr m) []

/-- The `topTags` of `analysisData`:
`Object.entries(tagCountMap).sort((a, b) => b[1] - a[1]).slice(0, 5)`. -/
def topTags (items : List Observation) : List (String × JsNumLike) :=
  (jsSortByCountDesc (jsEntries (tagCountMap items))).take 5

/-- The `topCourses` of `analysisData`. -/
def topCourses (items : List Observation) : List (String × JsNumLike) :=
  (jsSortByCountDesc (jsEntries (courseCountMap items))).take 5

/-- The `topFeelings` of `analysisData`. -/
def topFeelings (items : List Observation) : List (String × JsNumLike) :=
  (jsSortByCountDesc (jsEntries (feelingCountMap items))).take 5

/-- The JS record built over a whole scan sequence, one key at a time. -/
def buildJsCountList (scan : List String) : List (String × JsNumLike) :=
  scan.foldl jsRecordIncr []

/-- Reference counter on plain keys: for a key that is neither an
array-index string nor an `Object.prototype` member, the JS record behaves
as this insertion-ordered counter (bump the entry if the key is present,
otherwise append a fresh entry); used to reason about the plain fraction
of the pipeline. -/
def recordIncr : List (String × Nat) → String → List (String × Nat)
  | [], key => [(key, 1)]
  | p :: ps, key => if p.1 = key then (p.1, p.2 + 1) :: ps else p :: recordIncr ps key

/-- Reference stable insertion step on plain numeric counts (mirrors
`jsInsertByCountDesc` on `num` values). -/
def insertByCountDesc (x : String × Nat) : List (String × Nat) → List (String × Nat)
  | [] => [x]
  | y :: ys => if y.2 ≤ x.2 then x :: y :: ys else y :: insertByCountDesc x ys

/-- Reference stable descending-by-count sort on plain numeric counts. -/
def sortByCountDesc (l : List (String × Nat)) : List (String × Nat) :=
  l.foldr insertByCountDesc []

/-- Reference count map over a scan sequence on plain keys. -/
def buildCountList (scan : List String) : List (String × Nat) :=
  scan.foldl recordIncr []

theorem recordIncr_of_not_mem (m : List (String × Nat)) (k : String)
    (h : k ∉ m.map Prod.fst) : recordIncr m k = m ++ [(k, 1)] := by
  induction m with
  | nil => rfl
  | cons p ps ih =>
    simp only [List.map_cons, List.mem_cons, not_or] at h
    rw [recordIncr, if_neg (fun e => h.1 e.symm), ih h.2]
    rfl

theorem recordIncr_keys_of_mem (m : List (String × Nat)) (k : String)
    (h : k ∈ m.map Prod.fst) :
    (recordIncr m k).map Prod.fst = m.map Prod.fst := by
  induction m with
  | nil => simp at h
  | cons p ps ih =>
    by_cases hpk : p.1 = k
    · simp [recordIncr, hpk]
    · have hmem : k ∈ ps.map Prod.fst := by
        rcases List.mem_cons.mp h with h' | h'
        · exact absurd h'.symm hpk
        · exact h'
      simp [recordIncr, hpk, ih hmem]

theorem recordIncr_mem_cases (m : List (String × Nat)) (k : String)
    (hnd : (m.map Prod.fst).Nodup) :
    ∀ p ∈ recordIncr m k,
      (p.1 ≠ k ∧ p ∈ m)
      ∨ (∃ n, (k, n) ∈ m ∧ p = (k, n + 1))
      ∨ (k ∉ m.map Prod.fst ∧ p = (k, 1)) := by
  induction m with
  | nil =>
    intro p hp
    simp only [recordIncr, List.mem_singleton] at hp
    exact Or.inr (Or.inr ⟨by simp, hp⟩)
  | cons q qs ih =>
    intro p hp
    by_cases hqk : q.1 = k
    · rw [recordIncr, if_pos hqk] at hp
      rcases List.mem_cons.mp hp with rfl | hps
      · refine Or.inr (Or.inl ⟨q.2, ?_, by rw [hqk]⟩)
        have : q = (k, q.2) := by
          rw [← hqk]
        exact this ▸ List.mem_cons_self q qs
      · left
        have hq1 : q.1 ∉ qs.map Prod.fst := by
          have := (List.pairwise_cons.mp hnd).1
          intro hc
          rcases List.mem_map.mp hc with ⟨r, hr, hr1⟩
          exact this r.1 (List.mem_map_of_mem Prod.fst hr) hr1.symm
        constructor
        · intro hc
          exact hq1 (by
            rw [hqk, ← hc]
            exact List.mem_map_of_mem Prod.fst hps)
        · exact List.mem_cons_of_mem q hps
    · rw [recordIncr, if_neg hqk] at hp
      rcases List.mem_cons.mp hp with rfl | hps
      · exact Or.inl ⟨fun e => hqk e, List.mem_cons_self p qs⟩
      · rcases ih (List.Pairwise.of_cons hnd) p hps with ⟨h1, h2⟩ | ⟨n, h1, h2⟩ | ⟨h1, h2⟩
        · exact Or.inl ⟨h1, List.mem_cons_of_mem q h2⟩
        · exact Or.inr (Or.inl ⟨n, List.mem_cons_of_mem q h1, h2⟩)
        · refine Or.inr (Or.inr ⟨?_, h2⟩)
          simp only [List.map_cons, List.mem_cons, not_or]
          exact ⟨fun e => hqk e.symm, h1⟩

theorem keys_nodup_of_pairwise_lt (scan : List String) (m : List (String × Nat))
    (h : m.Pairwise (fun p q => scan.indexOf p.1 < scan.indexOf q.1)) :
    (m.map Prod.fst).Nodup := by
  have h' : (m.map Prod.fst).Pairwise (fun a b => scan.indexOf a < scan.indexOf b) :=
    (List.pairwise_map).mpr h
  exact h'.imp (fun hab e => absurd hab (by rw [e]; exact lt_irrefl _))

theorem countMapInv_step (scan : List String) (m : List (String × Nat)) (k : String)
    (h1 : ∀ p ∈ m, p.2 = scan.count p.1)
    (h2 : ∀ x, x ∈ m.map Prod.fst ↔ x ∈ scan)
    (h3 : m.Pairwise (fun p q => scan.indexOf p.1 < scan.indexOf q.1)) :
    (∀ p ∈ recordIncr m k, p.2 = (scan ++ [k]).count p.1)
    ∧ (∀ x, x ∈ (recordIncr m k).map Prod.fst ↔ x ∈ scan ++ [k])
    ∧ (recordIncr m k).Pairwise
        (fun p q => (scan ++ [k]).indexOf p.1 < (scan ++ [k]).indexOf q.1) := by
  by_cases hk : k ∈ m.map Prod.fst
  · have hkscan : k ∈ scan := (h2 k).mp hk
    have hkeys := recordIncr_keys_of_mem m k hk
    have hnd := keys_nodup_of_pairwise_lt scan m h3
    refine ⟨?_, ?_, ?_⟩
    · intro p hp
      rcases recordIncr_mem_cases m k hnd p hp with ⟨hne, hpm⟩ | ⟨n, hkn, rfl⟩ | ⟨hno, _⟩
      · rw [h1 p hpm, List.count_append]
        have hkp : ¬(k = p.1) := fun e => hne e.symm
        have : List.count p.1 [k] = 0 := by
          simp [List.count_cons, hkp]
        omega
      · have := h1 (k, n) hkn
        simp only at this
        rw [List.count_append]
        simp [List.count_cons, ← this]
      · exact absurd hk hno
    · intro x
      rw [hkeys, h2, List.mem_append]
      constructor
      · exact Or.inl
      · rintro (hx | hx)
        · exact hx
        · rw [List.mem_singleton.mp hx]
          exact hkscan
    · have hall : ∀ p ∈ recordIncr m k, p.1 ∈ scan := by
        intro p hp
        have : p.1 ∈ (recordIncr m k).map Prod.fst := List.mem_map_of_mem Prod.fst hp
        rw [hkeys] at this
        exact (h2 p.1).mp this
      have hmap : ((recordIncr m k).map Prod.fst).Pairwise
          (fun a b => scan.indexOf a < scan.indexOf b) := by
        rw [hkeys]
        exact (List.pairwise_map).mpr h3
      have hpw : (recordIncr m k).Pairwise
          (fun p q => scan.indexOf p.1 < scan.indexOf q.1) := by
        rw [List.pairwise_map] at hmap
        exact hmap
      refine hpw.imp_of_mem (fun {p q} hp hq hlt => ?_)
      rw [List.indexOf_append_of_mem (hall p hp), List.indexOf_append_of_mem (hall q hq)]
      exact hlt
  · have hkscan : k ∉ scan := fun hs => hk ((h2 k).mpr hs)
    have heq := recordIncr_of_not_mem m k hk
    refine ⟨?_, ?_, ?_⟩
    · intro p hp
      rw [heq] at hp
      rcases List.mem_append.mp hp with hpm | hpk
      · have hp1 : p.1 ∈ scan := (h2 p.1).mp (List.mem_map_of_mem Prod.fst hpm)
        have hne : p.1 ≠ k := fun e => hkscan (e ▸ hp1)
        rw [h1 p hpm, List.count_append]
        have hkp : ¬(k = p.1) := fun e => hne e.symm
        have : List.count p.1 [k] = 0 := by
          simp [List.count_cons, hkp]
        omega
      · rw [List.mem_singleton.mp hpk]
        simp [List.count_append, List.count_eq_zero.mpr hkscan]
    · intro x
      rw [heq]
      simp only [List.map_append, List.mem_append, h2, List.map_cons, List.map_nil]
    · rw [heq, List.pairwise_append]
      refine ⟨?_, by simp, ?_⟩
      · refine h3.imp_of_mem (fun {p q} hp hq hlt => ?_)
        have hp1 : p.1 ∈ scan := (h2 p.1).mp (List.mem_map_of_mem Prod.fst hp)
        have hq1 : q.1 ∈ scan := (h2 q.1).mp (List.mem_map_of_mem Prod.fst hq)
        rw [List.indexOf_append_of_mem hp1, List.indexOf_append_of_mem hq1]
        exact hlt
      · intro p hp q hq
        rw [List.mem_singleton.mp hq]
        have hp1 : p.1 ∈ scan := (h2 p.1).mp (List.mem_map_of_mem Prod.fst hp)
        rw [List.indexOf_append_of_mem hp1, List.indexOf_append_of_not_mem hkscan]
        simp only [List.indexOf_cons_self, Nat.add_zero]
        exact List.indexOf_lt_length.mpr hp1

theorem buildCountList_inv (scan : List String) :
    (∀ p ∈ buildCountList scan, p.2 = scan.count p.1)
    ∧ (∀ x, x ∈ (buildCountList scan).map Prod.fst ↔ x ∈ scan)
    ∧ (buildCountList scan).Pairwise
        (fun p q => scan.indexOf p.1 < scan.indexOf q.1) := by
  induction scan using List.reverseRecOn with
  | nil => simp [buildCountList]
  | append_singleton s k ih =>
    have hfold : buildCountList (s ++ [k]) = recordIncr (buildCountList s) k := by
      unfold buildCountList
      rw [List.foldl_append]
      rfl
    rw [hfold]
    exact countMapInv_step s (buildCountList s) k ih.1 ih.2.1 ih.2.2

theorem insertByCountDesc_perm (x : String × Nat) (l : List (String × Nat)) :
    List.Perm (insertByCountDesc x l) (x :: l) := by
  induction l with
  | nil => rfl
  | cons y ys ih =>
    rw [insertByCountDesc]
    by_cases h : y.2 ≤ x.2
    · rw [if_pos h]
    · rw [if_neg h]
      exact (ih.cons y).trans (List.Perm.swap x y ys)

theorem sortByCountDesc_perm (l : List (String × Nat)) :
    List.Perm (sortByCountDesc l) l := by
  induction l with
  | nil => rfl
  | cons p ps ih =>
    show List.Perm (insertByCountDesc p (sortByCountDesc ps)) (p :: ps)
    exact (insertByCountDesc_perm p (sortByCountDesc ps)).trans (ih.cons p)

theorem insertByCountDesc_pairwise (pos : String → Nat) (x : String × Nat)
    (l : List (String × Nat))
    (hl : l.Pairwise (fun p q => q.2 < p.2 ∨ (p.2 = q.2 ∧ pos p.1 < pos q.1)))
    (hx : ∀ y ∈ l, pos x.1 < pos y.1) :
    (insertByCountDesc x l).Pairwise
      (fun p q => q.2 < p.2 ∨ (p.2 = q.2 ∧ pos p.1 < pos q.1)) := by
  induction l with
  | nil => simp [insertByCountDesc]
  | cons y ys ih =>
    rw [insertByCountDesc]
    by_cases h : y.2 ≤ x.2
    · rw [if_pos h]
      refine List.Pairwise.cons ?_ hl
      intro z hz
      rcases List.mem_cons.mp hz with rfl | hzys
      · rcases lt_or_eq_of_le h with hlt | heq
        · exact Or.inl hlt
        · exact Or.inr ⟨heq.symm, hx z (List.mem_cons_self z ys)⟩
      · have hyz := List.rel_of_pairwise_cons hl hzys
        have hz2 : z.2 ≤ y.2 := by
          rcases hyz with hlt | ⟨heq, _⟩
          · exact le_of_lt hlt
          · exact le_of_eq heq.symm
        rcases lt_or_eq_of_le (le_trans hz2 h) with hlt | heq
        · exact Or.inl hlt
        · exact Or.inr ⟨heq.symm, hx z (List.mem_cons_of_mem y hzys)⟩
    · rw [if_neg h]
      have hys := List.Pairwise.of_cons hl
      refine List.Pairwise.cons ?_ (ih hys (fun z hz => hx z (List.mem_cons_of_mem y hz)))
      intro z hz
      have hz' : z ∈ x :: ys := (insertByCountDesc_perm x ys).subset hz
      rcases List.mem_cons.mp hz' with rfl | hzys
      · exact Or.inl (lt_of_not_le h)
      · exact List.rel_of_pairwise_cons hl hzys

theorem sortByCountDesc_pairwise (pos : String → Nat) (m : List (String × Nat))
    (hm : m.Pairwise (fun p q => pos p.1 < pos q.1)) :
    (sortByCountDesc m).Pairwise
      (fun p q => q.2 < p.2 ∨ (p.2 = q.2 ∧ pos p.1 < pos q.1)) := by
  induction m with
  | nil => simp [sortByCountDesc]
  | cons p ps ih =>
    show (insertByCountDesc p (sortByCountDesc ps)).Pairwise _
    refine insertByCountDesc_pairwise pos p _ (ih (List.Pairwise.of_cons hm)) ?_
    intro y hy
    exact List.rel_of_pairwise_cons hm ((sortByCountDesc_perm ps).subset hy)

/-- The top-five ranking properties on the plain reference pipeline: at
most five entries, every entry carries the frequency of its key in `scan`,
entries are sorted by descending count, and ties are ordered by first
occurrence in `scan`. -/
def PlainTopFiveSpec (scan : List String) (top : List (String × Nat)) : Prop :=
  top.length ≤ 5
  ∧ (∀ p ∈ top, p.2 = scan.count p.1)
  ∧ top.Pairwise (fun p q => q.2 ≤ p.2)
  ∧ top.Pairwise (fun p q => p.2 = q.2 → scan.indexOf p.1 ≤ scan.indexOf q.1)

theorem topFive_spec_of_scan (scan : List String) :
    PlainTopFiveSpec scan ((sortByCountDesc (buildCountList scan)).take 5) := by
  obtain ⟨hval, hmem, hpw⟩ := buildCountList_inv scan
  have hsorted := sortByCountDesc_pairwise (fun a => scan.indexOf a) (buildCountList scan) hpw
  have htake := hsorted.sublist (List.take_sublist 5 _)
  refine ⟨?_, ?_, ?_, ?_⟩
  · rw [List.length_take]
    exact min_le_left 5 _
  · intro p hp
    have hp1 : p ∈ sortByCountDesc (buildCountList scan) := List.take_subset 5 _ hp
    exact hval p ((sortByCountDesc_perm (buildCountList scan)).subset hp1)
  · exact htake.imp (fun hpq => by
      rcases hpq with hlt | ⟨heq, _⟩
      · exact le_of_lt hlt
      · exact le_of_eq heq.symm)
  · exact htake.imp (fun hpq heq => by
      rcases hpq with hlt | ⟨_, hpos⟩
      · omega
      · exact le_of_lt hpos)

theorem tagCountMap_eq_build (items : List Observation) :
    tagCountMap items = buildJsCountList (items.flatMap (fun item => item.tags)) := by
  unfold tagCountMap buildJsCountList
  generalize ([] : List (String × JsNumLike)) = init
  induction items generalizing init with
  | nil => rfl
  | cons i is ih => simp [List.flatMap_cons, List.foldl_append, ih]

theorem courseCountMap_eq_build (items : List Observation) :
    courseCountMap items
      = buildJsCountList (items.map (fun item => item.course_name)) := by
  unfold courseCountMap buildJsCountList
  rw [List.foldl_map]

theorem feelingCountMap_eq_build (items : List Observation) :
    feelingCountMap items
      = buildJsCountList (items.flatMap (fun item => item.feeling_tags)) := by
  unfold feelingCountMap buildJsCountList
  generalize ([] : List (String × JsNumLike)) = init
  induction items generalizing init with
  | nil => rfl
  | cons i is ih => simp [List.flatMap_cons, List.foldl_append, ih]

/-- Injection of a plain numeric entry into the JS value model. -/
def injVal (p : String × Nat) : String × JsNumLike := (p.1, JsNumLike.num p.2)

theorem jsRecordIncr_map_injVal (m : List (String × Nat)) (k : String)
    (hk : k ∉ protoNames) :
    jsRecordIncr (m.map injVal) k = (recordIncr m k).map injVal := by
  have hkp : k ≠ "__proto__" := by
    intro e
    exact hk (e ▸ (by decide : ("__proto__" : String) ∈ protoNames))
  have hc : protoNames.contains k = false := by
    simp only [List.elem_eq_mem]
    exact decide_eq_false hk
  unfold jsRecordIncr
  rw [if_neg hkp]
  induction m with
  | nil =>
    simp [jsIncrementedValue, jsReadOwn, jsSetOwn, hc, hk, recordIncr, injVal]
  | cons p ps ih =>
    by_cases hpk : p.1 = k
    · simp [jsIncrementedValue, jsReadOwn, jsSetOwn, recordIncr, injVal, hpk]
    · have h1 : jsReadOwn ((p :: ps).map injVal) k = jsReadOwn (ps.map injVal) k := by
        simp [jsReadOwn, injVal, hpk]
      have h2 : jsIncrementedValue ((p :: ps).map injVal) k
          = jsIncrementedValue (ps.map injVal) k := by
        unfold jsIncrementedValue
        rw [h1]
      have h3 : jsSetOwn ((p :: ps).map injVal) k (jsIncrementedValue (ps.map injVal) k)
          = injVal p :: jsSetOwn (ps.map injVal) k (jsIncrementedValue (ps.map injVal) k) := by
        simp [jsSetOwn, injVal, hpk]
      rw [h2, h3, ih,
        show recordIncr (p :: ps) k = p :: recordIncr ps k from by
          rw [recordIncr, if_neg hpk]]
      rfl

theorem buildJsCountList_eq_map (scan : List String)
    (hplain : ∀ k ∈ scan, k ∉ protoNames) :
    buildJsCountList scan = (buildCountList scan).map injVal := by
  induction scan using List.reverseRecOn with
  | nil => rfl
  | append_singleton s k ih =>
    have hs : ∀ x ∈ s, x ∉ protoNames := fun x hx => hplain x (List.mem_append_left _ hx)
    have hk : k ∉ protoNames :=
      hplain k (List.mem_append_right _ (List.mem_singleton_self k))
    unfold buildJsCountList buildCountList
    rw [List.foldl_append, List.foldl_append]
    simp only [List.foldl_cons, List.foldl_nil]
    rw [show List.foldl jsRecordIncr [] s = buildJsCountList s from rfl,
      show List.foldl recordIncr [] s = buildCountList s from rfl, ih hs]
    exact jsRecordIncr_map_injVal (buildCountList s) k hk

theorem jsEntries_of_plain (m : List (String × JsNumLike))
    (h : ∀ p ∈ m, jsArrayIndex p.1 = none) : jsEntries m = m := by
  unfold jsEntries
  have h1 : m.filter (fun p => (jsArrayIndex p.1).isSome) = [] := by
    rw [List.filter_eq_nil_iff]
    intro p hp
    simp [h p hp]
  have h2 : m.filter (fun p => (jsArrayIndex p.1).isNone) = m := by
    rw [List.filter_eq_self]
    intro p hp
    simp [h p hp]
  rw [h1, h2]
  rfl

theorem jsInsertByCountDesc_map (x : String × Nat) (l : List (String × Nat)) :
    jsInsertByCountDesc (injVal x) (l.map injVal) = (insertByCountDesc x l).map injVal := by
  induction l with
  | nil => rfl
  | cons y ys ih =>
    simp only [List.map_cons]
    rw [jsInsertByCountDesc, insertByCountDesc]
    by_cases h : x.2 < y.2
    · rw [if_pos (by simp [injVal, jsLtVal, h]), if_neg (by omega), ih]
      rfl
    · rw [if_neg (by simp [injVal, jsLtVal, h]), if_pos (by omega)]
      rfl

theorem jsSortByCountDesc_map (l : List (String × Nat)) :
    jsSortByCountDesc (l.map injVal) = (sortByCountDesc l).map injVal := by
  induction l with
  | nil => rfl
  | cons p ps ih =>
    show jsInsertByCountDesc (injVal p) (jsSortByCountDesc (ps.map injVal)) = _
    rw [ih, jsInsertByCountDesc_map]
    rfl

/-- The top-five ranking properties asserted by claim C5 for one dimension,
relative to the scan sequence `scan` (the dimension's values in the order
they are encountered while scanning `currentItems`): at most five entries,
every entry carries the genuine numeric frequency of its key in `scan`,
entries are sorted by descending frequency, and ties are ordered by first
occurrence in `scan`. -/
def TopFiveSpec (scan : List String) (top : List (String × JsNumLike)) : Prop :=
  top.length ≤ 5
  ∧ (∀ p ∈ top, p.2 = JsNumLike.num (scan.count p.1))
  ∧ top.Pairwise (fun p q => scan.count q.1 ≤ scan.count p.1)
  ∧ top.Pairwise (fun p q => scan.count p.1 = scan.count q.1
      → scan.indexOf p.1 ≤ scan.indexOf q.1)

theorem topFiveSpec_map (scan : List String) (top : List (String × Nat))
    (h : PlainTopFiveSpec scan top) : TopFiveSpec scan (top.map injVal) := by
  obtain ⟨h1, h2, h3, h4⟩ := h
  have h3' : top.Pairwise (fun p q => scan.count q.1 ≤ scan.count p.1) :=
    h3.imp_of_mem (fun {p q} hp hq hle => by
      rw [← h2 p hp, ← h2 q hq]
      exact hle)
  have h4' : top.Pairwise (fun p q => scan.count p.1 = scan.count q.1
      → scan.indexOf p.1 ≤ scan.indexOf q.1) :=
    h4.imp_of_mem (fun {p q} hp hq him heq => him (by rw [h2 p hp, h2 q hq, heq]))
  refine ⟨?_, ?_, ?_, ?_⟩
  · rw [List.length_map]
    exact h1
  · intro p hp
    rcases List.mem_map.mp hp with ⟨q, hq, rfl⟩
    show JsNumLike.num q.2 = JsNumLike.num (scan.count q.1)
    rw [h2 q hq]
  · exact (List.pairwise_map).mpr h3'
  · exact (List.pairwise_map).mpr h4'

theorem topFive_js_of_plain (scan : List String)
    (hplain : ∀ k ∈ scan, jsArrayIndex k = none ∧ k ∉ protoNames) :
    TopFiveSpec scan ((jsSortByCountDesc (jsEntries (buildJsCountList scan))).take 5) := by
  have hmapeq : buildJsCountList scan = (buildCountList scan).map injVal :=
    buildJsCountList_eq_map scan (fun k hk => (hplain k hk).2)
  have hkeys : ∀ p ∈ (buildCountList scan).map injVal, jsArrayIndex p.1 = none := by
    intro p hp
    rcases List.mem_map.mp hp with ⟨q, hq, rfl⟩
    have hqs : q.1 ∈ scan :=
      ((buildCountList_inv scan).2.1 q.1).mp (List.mem_map_of_mem Prod.fst hq)
    exact (hplain q.1 hqs).1
  rw [hmapeq, jsEntries_of_plain _ hkeys, jsSortByCountDesc_map, ← List.map_take]
  exact topFiveSpec_map scan _ (topFive_spec_of_scan scan)

/-- An observation whose course name is the integer-like key "10". -/
def numericCourseObs1 : Observation :=
  { id := "a", session_id := "s", course_name := "10",
    category := IssueCategory.tts, tags := ["发音错误"], issue_description := "读音不对",
    feeling_tags := ["其他"], feeling_other := some "平", created_at := 0 }

/-- An observation whose course name is the integer-like key "2". -/
def numericCourseObs2 : Observation :=
  { id := "b", session_id := "s", course_name := "2",
    category := IssueCategory.tts, tags := ["语速异常"], issue_description := "太快",
    feeling_tags := ["其他"], feeling_other := some "平", created_at := 1 }

/-- The current items and course scan of the numeric-course log. -/
def numericCourseItems : List Observation :=
  currentItems AnalysisWindow.all [numericCourseObs1, numericCourseObs2] 0

/-- The course-name scan sequence of the numeric-course log. -/
def numericCourseScan : List String :=
  numericCourseItems.map (fun item => item.course_name)

/-- C5 counterexample: with the equal-count integer-like course names "10"
(scanned first) and "2", `Object.entries` reorders the record numerically,
so `topCourses` lists "2" before "10" although "10" was first encountered —
the claimed first-encounter tie order fails on the code. -/
theorem top_rankings_counterexample :
    numericCourseScan = ["10", "2"]
    ∧ numericCourseScan.count "2" = numericCourseScan.count "10"
    ∧ (topCourses numericCourseItems).map Prod.fst = ["2", "10"]
    ∧ numericCourseScan.indexOf "10" < numericCourseScan.indexOf "2"
    ∧ ¬ (topCourses numericCourseItems).Pairwise
        (fun p q => numericCourseScan.count p.1 = numericCourseScan.count q.1
          → numericCourseScan.indexOf p.1 ≤ numericCourseScan.indexOf q.1) := by
  have htop : topCourses numericCourseItems
      = [("2", JsNumLike.num 1), ("10", JsNumLike.num 1)] := by decide
  refine ⟨by decide, by decide, by rw [htop]; rfl, by decide, ?_⟩
  intro hpw
  rw [htop] at hpw
  have hrel := List.rel_of_pairwise_cons hpw (List.mem_singleton_self ("10", JsNumLike.num 1))
  have := hrel (by decide)
  revert this
  decide

/-- C5 amended (corrected): for each ranking dimension, *provided* every
scanned key is plain — neither an ECMAScript array-index string (which
`Object.entries` reorders numerically first) nor an `Object.prototype`
member name (whose prototype-chain read corrupts the count or, for
`__proto__`, suppresses the entry) — the top-K list has at most 5 entries,
each entry's count equals the key's frequency over `currentItems` (once
per occurrence), entries are sorted by descending count, and equal counts
keep the first-encounter order of the scan over `currentItems`. -/
theorem top_rankings (w : AnalysisWindow) (observations : List Observation) (now0 : Int)
    (htags : ∀ k ∈ (currentItems w observations now0).flatMap (fun item => item.tags),
      jsArrayIndex k = none ∧ k ∉ protoNames)
    (hcourses : ∀ k ∈ (currentItems w observations now0).map (fun item => item.course_name),
      jsArrayIndex k = none ∧ k ∉ protoNames)
    (hfeelings : ∀ k ∈ (currentItems w observations now0).flatMap
        (fun item => item.feeling_tags),
      jsArrayIndex k = none ∧ k ∉ protoNames) :
    TopFiveSpec ((currentItems w observations now0).flatMap (fun item => item.tags))
      (topTags (currentItems w observations now0))
    ∧ TopFiveSpec ((currentItems w observations now0).map (fun item => item.course_name))
      (topCourses (currentItems w observations now0))
    ∧ TopFiveSpec ((currentItems w observations now0).flatMap (fun item => item.feeling_tags))
      (topFeelings (currentItems w observations now0)) := by
  refine ⟨?_, ?_, ?_⟩
  · rw [topTags, tagCountMap_eq_build]
    exact topFive_js_of_plain _ htags
  · rw [topCourses, courseCountMap_eq_build]
    exact topFive_js_of_plain _ hcourses
  · rw [topFeelings, feelingCountMap_eq_build]
    exact topFive_js_of_plain _ hfeelings

/-- An observation whose strings are all plain keys. -/
def plainKeysObs : Observation :=
  { id := "w", session_id := "s", course_name := "口语课",
    category := IssueCategory.text, tags := ["文本表达别扭"],
    issue_description := "表达别扭", feeling_tags := ["偶尔能感觉到情绪"],
    feeling_other := none, created_at := 0 }

theorem top_rankings_witness :
    TopFiveSpec ((currentItems AnalysisWindow.all [plainKeysObs] 0).flatMap
        (fun item => item.tags))
      (topTags (currentItems AnalysisWindow.all [plainKeysObs] 0))
    ∧ TopFiveSpec ((currentItems AnalysisWindow.all [plainKeysObs] 0).map
        (fun item => item.course_name))
      (topCourses (currentItems AnalysisWindow.all [plainKeysObs] 0))
    ∧ TopFiveSpec ((currentItems AnalysisWindow.all [plainKeysObs] 0).flatMap
        (fun item => item.feeling_tags))
      (topFeelings (currentItems AnalysisWindow.all [plainKeysObs] 0)) :=
  top_rankings AnalysisWindow.all [plainKeysObs] 0 (by decide) (by decide) (by decide)

/-- The `trendDays` local of `analysisData`: `windowDays ?? 14`. -/
def trendDaysOf (w : AnalysisWindow) : Nat := (windowDaysOf w).getD 14

/-- The `trendStart` local of `analysisData`: start of day, minus
`trendDays - 1` days. -/
def trendStartOf (now : Int) (td : Nat) : Int :=
  startOfDay now - ((td : Int) - 1) * msPerDay

/-- The `trendCountMap` initialisation loop of `analysisData`: one zeroed
bucket per day key, in chronological insertion order. -/
def initTrendList (now : Int) (td : Nat) : List (Int × Nat) :=
  (List.range td).map
    (fun (idx : Nat) => (dateKey (trendStartOf now td + (idx : Int) * msPerDay), 0))

/-- Embedding of `if (key in trendCountMap) trendCountMap[key] += 1`: bump an existing
bucket, ignore unknown keys. -/
def trendBump : List (Int × Nat) → Int → List (Int × Nat)
  | [], _ => []
  | p :: ps, key => if p.1 = key then (p.1, p.2 + 1) :: ps else p :: trendBump ps key

/-- The `trendSource` local of `analysisData`. -/
def trendSource (w : AnalysisWindow) (observations : List Observation) (now0 : Int) :
    List Observation :=
  match windowDaysOf w with
  | none =>
    (currentItems w observations now0).filter
      (fun item => decide (trendStartOf (analysisNow now0) (trendDaysOf w) ≤ item.created_at))
  | some _ => currentItems w observations now0

/-- The `dailyTrend` entry list of `analysisData`. -/
def dailyTrend (w : AnalysisWindow) (observations : List Observation) (now0 : Int) :
    List (Int × Nat) :=
  (trendSource w observations now0).foldl
    (fun m item => trendBump m (dateKey item.created_at))
    (initTrendList (analysisNow now0) (trendDaysOf w))

theorem trendBump_keys (m : List (Int × Nat)) (k : Int) :
    (trendBump m k).map Prod.fst = m.map Prod.fst := by
  induction m with
  | nil => rfl
  | cons p ps ih =>
    by_cases h : p.1 = k
    · simp [trendBump, h]
    · simp [trendBump, h, ih]

theorem trendBump_of_not_mem (m : List (Int × Nat)) (k : Int)
    (h : k ∉ m.map Prod.fst) : trendBump m k = m := by
  induction m with
  | nil => rfl
  | cons p ps ih =>
    simp only [List.map_cons, List.mem_cons, not_or] at h
    rw [trendBump, if_neg (fun e => h.1 e.symm), ih h.2]

theorem trendBump_sum (m : List (Int × Nat)) (k : Int) :
    ((trendBump m k).map Prod.snd).sum
      = ((m.map Prod.snd).sum + if k ∈ m.map Prod.fst then 1 else 0) := by
  induction m with
  | nil => simp [trendBump]
  | cons p ps ih =>
    by_cases h : p.1 = k
    · rw [show trendBump (p :: ps) k = (p.1, p.2 + 1) :: ps from by
        rw [trendBump, if_pos h]]
      rw [if_pos (by simp [List.map_cons, List.mem_cons, h.symm])]
      simp only [List.map_cons, List.sum_cons]
      omega
    · rw [show trendBump (p :: ps) k = p :: trendBump ps k from by
        rw [trendBump, if_neg h]]
      simp only [List.map_cons, List.sum_cons, ih]
      have hiff : (k ∈ p.1 :: List.map Prod.fst ps) ↔ (k ∈ List.map Prod.fst ps) := by
        simp only [List.mem_cons]
        exact ⟨fun hor => hor.elim (fun e => absurd e.symm h) id, Or.inr⟩
      by_cases h2 : k ∈ List.map Prod.fst ps
      · rw [if_pos h2, if_pos (hiff.mpr h2)]
        omega
      · rw [if_neg h2, if_neg (fun hc => h2 (hiff.mp hc))]
        omega

theorem trendBump_le (c : Nat) (k : Int) :
    ∀ m : List (Int × Nat), (∀ p ∈ m, p.2 ≤ c) → ∀ p ∈ trendBump m k, p.2 ≤ c + 1 := by
  intro m
  induction m with
  | nil =>
    intro _ p hp
    simp [trendBump] at hp
  | cons q qs ih =>
    intro h p hp
    by_cases hqk : q.1 = k
    · rw [trendBump, if_pos hqk] at hp
      rcases List.mem_cons.mp hp with rfl | hps
      · have := h q (List.mem_cons_self q qs)
        simpa using Nat.add_le_add_right this 1
      · exact le_trans (h p (List.mem_cons_of_mem q hps)) (Nat.le_succ c)
    · rw [trendBump, if_neg hqk] at hp
      rcases List.mem_cons.mp hp with rfl | hps
      · exact le_trans (h p (List.mem_cons_self p qs)) (Nat.le_succ c)
      · exact ih (fun r hr => h r (List.mem_cons_of_mem q hr)) p hps

theorem trendFold_keys (items : List Observation) :
    ∀ init : List (Int × Nat),
      ((items.foldl (fun m item => trendBump m (dateKey item.created_at)) init).map Prod.fst)
        = init.map Prod.fst := by
  induction items with
  | nil => intro init; rfl
  | cons i is ih =>
    intro init
    simp only [List.foldl_cons]
    rw [ih, trendBump_keys]

theorem trendFold_sum (items : List Observation) :
    ∀ init : List (Int × Nat),
      (((items.foldl (fun m item => trendBump m (dateKey item.created_at)) init).map
          Prod.snd).sum)
        = ((init.map Prod.snd).sum
            + (items.filter (fun item =>
                decide (dateKey item.created_at ∈ init.map Prod.fst))).length) := by
  induction items with
  | nil => intro init; simp
  | cons i is ih =>
    intro init
    simp only [List.foldl_cons]
    rw [ih, trendBump_sum]
    simp only [trendBump_keys]
    by_cases hmem : dateKey i.created_at ∈ init.map Prod.fst
    · rw [if_pos hmem]
      rw [List.filter_cons_of_pos (by simpa using hmem)]
      simp only [List.length_cons]
      omega
    · rw [if_neg hmem]
      rw [List.filter_cons_of_neg (by simpa using hmem)]
      omega

theorem trendFold_le (items : List Observation) :
    ∀ (init : List (Int × Nat)) (c : Nat), (∀ p ∈ init, p.2 ≤ c) →
      ∀ p ∈ items.foldl (fun m item => trendBump m (dateKey item.created_at)) init,
        p.2 ≤ c + items.length := by
  induction items with
  | nil =>
    intro init c h p hp
    simpa using h p hp
  | cons i is ih =>
    intro init c h p hp
    simp only [List.foldl_cons] at hp
    have := ih (trendBump init (dateKey i.created_at)) (c + 1)
      (trendBump_le c (dateKey i.created_at) init h) p hp
    simp only [List.length_cons]
    omega

theorem trendStartOf_analysisNow (now0 : Int) (td : Nat) :
    trendStartOf (analysisNow now0) td = msPerDay * (dateKey now0 - ((td : Int) - 1)) := by
  unfold trendStartOf
  rw [show startOfDay (analysisNow now0) = startOfDay now0 from startOfDay_endOfDay now0,
    startOfDay_as_dateKey]
  ring

theorem initTrendList_keys (now0 : Int) (td : Nat) :
    (initTrendList (analysisNow now0) td).map Prod.fst
      = (List.range td).map (fun (idx : Nat) => dateKey now0 - ((td : Int) - 1) + (idx : Int)) := by
  unfold initTrendList
  rw [List.map_map]
  refine List.map_congr_left ?_
  intro idx _
  show dateKey (trendStartOf (analysisNow now0) td + (idx : Int) * msPerDay) = _
  rw [trendStartOf_analysisNow]
  rw [show msPerDay * (dateKey now0 - ((td : Int) - 1)) + (idx : Int) * msPerDay
      = msPerDay * (dateKey now0 - ((td : Int) - 1) + (idx : Int)) from by ring]
  rw [dateKey_mul]

theorem mem_initTrend_keys_iff (now0 : Int) (td : Nat) (k : Int) :
    k ∈ (initTrendList (analysisNow now0) td).map Prod.fst
      ↔ (dateKey now0 - ((td : Int) - 1) ≤ k ∧ k ≤ dateKey now0) := by
  rw [initTrendList_keys]
  simp only [List.mem_map, List.mem_range]
  constructor
  · rintro ⟨idx, hidx, rfl⟩
    omega
  · rintro ⟨h1, h2⟩
    exact ⟨(k - (dateKey now0 - ((td : Int) - 1))).toNat, by omega, by omega⟩

theorem initTrendList_length (now0 : Int) (td : Nat) :
    (initTrendList (analysisNow now0) td).length = td := by
  unfold initTrendList
  rw [List.length_map, List.length_range]

theorem initTrendList_values (now0 : Int) (td : Nat) :
    ∀ p ∈ initTrendList (analysisNow now0) td, p.2 = 0 := by
  intro p hp
  unfold initTrendList at hp
  rcases List.mem_map.mp hp with ⟨idx, _, rfl⟩
  rfl

/-- The trend-series properties asserted by claim C6: the series has the
window's day count (7 / 30 / 14), its keys are the consecutive day numbers
ending on `now0`'s day in ascending order, buckets start at zero, and the
bucket values sum to the number of trend-source observations whose day
falls inside the series' date range. -/
def TrendSpec (w : AnalysisWindow) (observations : List Observation) (now0 : Int) : Prop :=
  (dailyTrend w observations now0).length = trendDaysOf w
  ∧ trendDaysOf AnalysisWindow.w7 = 7
  ∧ trendDaysOf AnalysisWindow.w30 = 30
  ∧ trendDaysOf AnalysisWindow.all = 14
  ∧ (dailyTrend w observations now0).map Prod.fst
      = (List.range (trendDaysOf w)).map
          (fun (idx : Nat) => dateKey now0 - ((trendDaysOf w : Int) - 1) + (idx : Int))
  ∧ (∀ p ∈ initTrendList (analysisNow now0) (trendDaysOf w), p.2 = 0)
  ∧ ((dailyTrend w observations now0).map Prod.snd).sum
      = ((trendSource w observations now0).filter (fun item =>
          decide (dateKey now0 - ((trendDaysOf w : Int) - 1) ≤ dateKey item.created_at
            ∧ dateKey item.created_at ≤ dateKey now0))).length

/-- C6: the daily trend series has length equal to the window's day count,
covers the consecutive calendar days ending today in ascending order with
zero-initialised buckets, and its values sum to the number of source
observations whose day lies in the series' range. -/
theorem daily_trend_spec (w : AnalysisWindow) (observations : List Observation)
    (now0 : Int) : TrendSpec w observations now0 := by
  have hkeys : (dailyTrend w observations now0).map Prod.fst
      = (initTrendList (analysisNow now0) (trendDaysOf w)).map Prod.fst := by
    unfold dailyTrend
    exact trendFold_keys (trendSource w observations now0) _
  refine ⟨?_, rfl, rfl, rfl, ?_, initTrendList_values now0 (trendDaysOf w), ?_⟩
  · have := congrArg List.length hkeys
    rw [List.length_map, List.length_map, initTrendList_length] at this
    exact this
  · rw [hkeys, initTrendList_keys]
  · unfold dailyTrend
    rw [trendFold_sum]
    have hz : ((initTrendList (analysisNow now0) (trendDaysOf w)).map Prod.snd).sum = 0 := by
      apply List.sum_eq_zero
      intro x hx
      rcases List.mem_map.mp hx with ⟨p, hp, rfl⟩
      exact initTrendList_values now0 (trendDaysOf w) p hp
    rw [hz, Nat.zero_add]
    congr 1
    apply List.filter_congr
    intro item _
    exact decide_eq_decide.mpr
      (mem_initTrend_keys_iff now0 (trendDaysOf w) (dateKey item.created_at))

theorem daily_trend_spec_witness : TrendSpec AnalysisWindow.all [] 0 :=
  daily_trend_spec AnalysisWindow.all [] 0

/-- The bucket-shape invariants asserted by claim C10: the trend mapping's
keys are exactly those created during initialisation (regardless of the
observations), so its length is always the window's day count; processing
observations only increments existing buckets (a key not present is
ignored), and each bucket value is bounded by the trend-source size. -/
def TrendShapeSpec (w : AnalysisWindow) (observations : List Observation) (now0 : Int) :
    Prop :=
  (dailyTrend w observations now0).map Prod.fst
      = (initTrendList (analysisNow now0) (trendDaysOf w)).map Prod.fst
  ∧ (dailyTrend w observations now0).length = trendDaysOf w
  ∧ (∀ p ∈ dailyTrend w observations now0, p.2 ≤ (trendSource w observations now0).length)
  ∧ (∀ (m : List (Int × Nat)) (k : Int), k ∉ m.map Prod.fst → trendBump m k = m)

/-- C10: the daily-trend mapping always holds exactly the `trendDays`
initialisation buckets — observations never create buckets, an unknown day
key is silently ignored — and each bucket value is at most the number of
trend-source observations. -/
theorem daily_trend_shape (w : AnalysisWindow) (observations : List Observation)
    (now0 : Int) : TrendShapeSpec w observations now0 := by
  have hkeys : (dailyTrend w observations now0).map Prod.fst
      = (initTrendList (analysisNow now0) (trendDaysOf w)).map Prod.fst := by
    unfold dailyTrend
    exact trendFold_keys (trendSource w observations now0) _
  refine ⟨hkeys, ?_, ?_, fun m k h => trendBump_of_not_mem m k h⟩
  · have := congrArg List.length hkeys
    rw [List.length_map, List.length_map, initTrendList_length] at this
    exact this
  · intro p hp
    have := trendFold_le (trendSource w observations now0)
      (initTrendList (analysisNow now0) (trendDaysOf w)) 0
      (fun q hq => le_of_eq (initTrendList_values now0 (trendDaysOf w) q hq)) p hp
    simpa using this

theorem daily_trend_shape_witness : TrendShapeSpec AnalysisWindow.w7 [] 0 :=
  daily_trend_shape AnalysisWindow.w7 [] 0

/-- The `Number.prototype.toFixed(1)` on a nonnegative value: round to one
decimal digit and render as `"<int>.<digit>"`. -/
def toFixed1Str (q : ℚ) : String :=
  toString (round (q * 10) / 10) ++ "." ++ toString (round (q * 10) % 10)

/-- The `formatPercent` from `types.ts`: `(value * 100).toFixed(1) + '%'`. -/
def formatPercentStr (q : ℚ) : String := toFixed1Str (q * 100) ++ "%"

/-- The ratio clause of `summaryText` (`ratioText` local). -/
def ratioText (w : AnalysisWindow) (observations : List Observation) (now0 : Int) :
    String :=
  if 0 < totalCount w observations now0 then
    "文本占比 "
      ++ formatPercentStr ((textCount w observations now0 : ℚ)
          / (totalCount w observations now0 : ℚ))
      ++ "，TTS占比 "
      ++ formatPercentStr ((ttsCount w observations now0 : ℚ)
          / (totalCount w observations now0 : ℚ))
  else "当前没有数据"

/-- The percent delta `(current - previous) / previous * 100` over `ℚ`. -/
def percentDiff (cur prev : Nat) : ℚ := ((cur : ℚ) - (prev : ℚ)) / (prev : ℚ) * 100

/-- The `compareText` local of `summaryText`: guarded period comparison. -/
def compareTextStr (w : AnalysisWindow) (observations : List Observation) (now0 : Int) :
    String :=
  match windowDaysOf w with
  | some _ =>
    if 0 < (previousItems w observations now0).length then
      "相较上一周期（" ++ toString (previousItems w observations now0).length ++ "条）"
        ++ (if 0 ≤ percentDiff (totalCount w observations now0)
              (previousItems w observations now0).length then "上升" else "下降")
        ++ " "
        ++ toFixed1Str |percentDiff (totalCount w observations now0)
              (previousItems w observations now0).length|
        ++ "%"
    else "暂无可比对的上一周期数据"
  | none => "暂无可比对的上一周期数据"

theorem compare_string_ne (s : String) :
    "相较上一周期（" ++ s ≠ "暂无可比对的上一周期数据" := by
  intro h
  have h1 : ("相较上一周期（" ++ s).data.head? = some '相' := by
    rw [String.data_append]
    rfl
  rw [h] at h1
  have h2 : ("暂无可比对的上一周期数据" : String).data.head? = some '暂' := rfl
  rw [h2] at h1
  exact absurd (Option.some.inj h1) (by decide)

theorem compareTextStr_of_some (w : AnalysisWindow) (wd : Nat)
    (observations : List Observation) (now0 : Int) (h : windowDaysOf w = some wd) :
    compareTextStr w observations now0
      = if 0 < (previousItems w observations now0).length then
          "相较上一周期（" ++ toString (previousItems w observations now0).length ++ "条）"
            ++ (if 0 ≤ percentDiff (totalCount w observations now0)
                  (previousItems w observations now0).length then "上升" else "下降")
            ++ " "
            ++ toFixed1Str |percentDiff (totalCount w observations now0)
                  (previousItems w observations now0).length|
            ++ "%"
        else "暂无可比对的上一周期数据" := by
  unfold compareTextStr
  simp only [h]

/-- The period-comparison properties asserted by claim C7: the comparison is
the unavailable sentinel exactly when the window is `all` or the previous
period is empty, and otherwise it reports the direction by the sign of the
delta and the absolute delta percentage rounded to one decimal, the
denominator being nonzero. -/
def CompareSpec (w : AnalysisWindow) (observations : List Observation) (now0 : Int) :
    Prop :=
  (compareTextStr w observations now0 = "暂无可比对的上一周期数据"
    ↔ (w = AnalysisWindow.all ∨ previousItems w observations now0 = []))
  ∧ (w ≠ AnalysisWindow.all → previousItems w observations now0 ≠ [] →
      (previousItems w observations now0).length ≠ 0
      ∧ compareTextStr w observations now0
        = "相较上一周期（" ++ toString (previousItems w observations now0).length ++ "条）"
          ++ (if 0 ≤ percentDiff (totalCount w observations now0)
                (previousItems w observations now0).length then "上升" else "下降")
          ++ " "
          ++ toFixed1Str |percentDiff (totalCount w observations now0)
                (previousItems w observations now0).length|
          ++ "%")

theorem compareSpec_of_some (w : AnalysisWindow) (wd : Nat)
    (observations : List Observation) (now0 : Int) (h : windowDaysOf w = some wd)
    (hall : w ≠ AnalysisWindow.all) : CompareSpec w observations now0 := by
  unfold CompareSpec
  have haux := compareTextStr_of_some w wd observations now0 h
  by_cases hp : previousItems w observations now0 = []
  · rw [haux, if_neg (by rw [hp]; simp)]
    constructor
    · exact ⟨fun _ => Or.inr hp, fun _ => rfl⟩
    · intro _ hne
      exact absurd hp hne
  · have hlen : 0 < (previousItems w observations now0).length := List.length_pos.mpr hp
    rw [haux, if_pos hlen]
    constructor
    · constructor
      · intro he
        exact absurd he (compare_string_ne _)
      · rintro (he | he)
        · exact absurd he hall
        · exact absurd he hp
    · intro _ _
      exact ⟨by omega, rfl⟩

/-- C7: the period comparison is reported unavailable exactly when the
window is `all` or the previous period is empty; otherwise the report
carries direction 上升 iff the percent delta `(cur - prev)/prev*100 ≥ 0`
and the absolute delta rounded to one decimal, and the zero denominator
never reaches a division. -/
theorem period_comparison (w : AnalysisWindow) (observations : List Observation)
    (now0 : Int) : CompareSpec w observations now0 := by
  cases w with
  | all =>
    unfold CompareSpec
    constructor
    · exact ⟨fun _ => Or.inl rfl, fun _ => rfl⟩
    · intro hne _
      exact absurd rfl hne
  | w7 =>
    exact compareSpec_of_some AnalysisWindow.w7 7 observations now0 rfl (by simp)
  | w30 =>
    exact compareSpec_of_some AnalysisWindow.w30 30 observations now0 rfl (by simp)

theorem period_comparison_witness :
    CompareSpec AnalysisWindow.w7
      [{ id := "1", session_id := "s", course_name := "课程",
         category := IssueCategory.tts, tags := ["发音错误"],
         issue_description := "读音不对", feeling_tags := [], feeling_other := none,
         created_at := 2 * 86400000 }]
      (13 * 86400000 + 5000) :=
  period_comparison AnalysisWindow.w7 _ _

/-- The totality and guard properties asserted by claim C8: the classifier
always produces one of the two categories, a zero `totalCount` yields the
"no data" ratio sentinel, an empty previous period yields the
"unavailable" comparison sentinel, and the empty log hits all of these
guarded branches. -/
def TotalitySpec (draft : ObservationDraft) (w : AnalysisWindow)
    (observations : List Observation) (now0 : Int) : Prop :=
  ((inferCategory draft).category = IssueCategory.text
    ∨ (inferCategory draft).category = IssueCategory.tts)
  ∧ (totalCount w observations now0 = 0 → ratioText w observations now0 = "当前没有数据")
  ∧ (previousItems w observations now0 = []
      → compareTextStr w observations now0 = "暂无可比对的上一周期数据")
  ∧ totalCount w [] now0 = 0
  ∧ ratioText w [] now0 = "当前没有数据"
  ∧ compareTextStr w [] now0 = "暂无可比对的上一周期数据"

/-- C8: `classify` and the summary computation are total — every draft gets
one of the two categories, and the divisions behind the ratio and the
period comparison sit behind guards, so `totalCount = 0` or an empty
previous period produce the sentinel strings instead of a division, in
particular on the empty observation log. -/
theorem totality_guards (draft : ObservationDraft) (w : AnalysisWindow)
    (observations : List Observation) (now0 : Int) :
    TotalitySpec draft w observations now0 := by
  have hthird : ∀ obs : List Observation, previousItems w obs now0 = []
      → compareTextStr w obs now0 = "暂无可比对的上一周期数据" := by
    intro obs hp
    cases w with
    | all => rfl
    | w7 =>
      rw [compareTextStr_of_some AnalysisWindow.w7 7 obs now0 rfl,
        if_neg (by rw [hp]; simp)]
    | w30 =>
      rw [compareTextStr_of_some AnalysisWindow.w30 30 obs now0 rfl,
        if_neg (by rw [hp]; simp)]
  have hempty : totalCount w [] now0 = 0 := by
    unfold totalCount currentItems
    simp
  refine ⟨?_, ?_, hthird observations, hempty, ?_, ?_⟩
  · unfold inferCategory
    split_ifs <;> simp
  · intro h
    unfold ratioText
    rw [if_neg (by omega)]
  · unfold ratioText
    rw [if_neg (by omega)]
  · refine hthird [] ?_
    cases w <;> rfl

theorem totality_guards_witness :
    TotalitySpec emptyObservationDraft AnalysisWindow.w7 [] 0 :=
  totality_guards emptyObservationDraft AnalysisWindow.w7 [] 0

end TtsQaRecorder
